import Mathlib

/-!
# Verification of the upload_imagegrid nearest-asset / deduplicated-upload pipeline

Shallow embedding of the core components of the `upload_imagegrid` repository:

* `services/findnearast.py` — EXIF GPS extraction and validation
  (`FindNearestService.validate_coordinates`, `get_decimal_from_dms`,
  `get_gps_from_image`);
* `services/arcgis.py` — nearest-mast spatial resolution
  (`ArcGISService.get_mast_data_near_point`, `find_nearest_mast`);
* `services/uploadtracker.py` — the content-hash ledger
  (`ImageUploadTracker.has_been_uploaded`, `log_upload`);
* `backup/toppbefaring.py` — ledger maintenance
  (`ToppbefaringUploader.cleanup_duplicate_entries`);
* `uploadByObjektnumber.py` — the per-file upload state machine and the
  folder batch loop (`ToppbefaringUploader.upload_toppbefaring_image`,
  `upload_from_folder`).

Modelling conventions:

* Python floats are modelled as `ℚ` (no rounding is relevant to any claim);
  Python `None` as `Option.none`.
* Python exceptions are modelled with `Except` where a claim depends on
  them; code that catches every exception is a total Lean function.
* Remote services (ArcGIS, ImageGrid) are oracles: records of functions /
  response values standing for the network responses the code would receive.
-/

namespace UploadImagegrid

/-! ## EXIF GPS extraction — `services/findnearast.py` -/

/-- `FindNearestService.validate_coordinates(lat, lon)`:
range check on both coordinates, then rejection of points within
`0.0001` of `(0, 0)`. -/
def validate_coordinates (lat lon : ℚ) : Bool :=
  if ¬(-90 ≤ lat ∧ lat ≤ 90) then false
  else if ¬(-180 ≤ lon ∧ lon ≤ 180) then false
  else if |lat| < 1/10000 ∧ |lon| < 1/10000 then false
  else true

/-- The shapes a GPS angle value can arrive in, as dispatched by
`get_decimal_from_dms`:

* `rationals`: a 3-tuple of `(numerator, denominator)` pairs — the
  standard EXIF rational encoding.  A zero denominator makes the Python
  code raise `ZeroDivisionError` (caught inside the function).
* `raws`: a 3-tuple of plain numbers `(deg, min, sec)`.
* `malformed`: any other shape (not a 3-tuple, or values on which
  `float()` raises) — the "Uventet DMS format" / exception path. -/
inductive DmsVal where
  | rationals (d m s : ℤ × ℤ) : DmsVal
  | raws (d m s : ℚ) : DmsVal
  | malformed : DmsVal
deriving DecidableEq, Repr

/-- A DMS value on which `get_decimal_from_dms` hits its error handling
(`ZeroDivisionError` on a zero denominator, or the unexpected-format
fallback) and so returns `0.0` instead of a converted angle. -/
def dmsParseError : DmsVal → Bool
  | .rationals (_, dd) (_, md) (_, sd) => dd == 0 || md == 0 || sd == 0
  | .raws _ _ _ => false
  | .malformed => true

/-- `FindNearestService.get_decimal_from_dms(dms, ref)`:
converts a DMS triplet to decimal degrees, negating for the `'S'` and
`'W'` hemisphere references; every error path returns `0.0`. -/
def get_decimal_from_dms (dms : DmsVal) (ref : String) : ℚ :=
  match dms with
  | .rationals (dn, dd) (mn, md) (sn, sd) =>
    -- `dms[i][0] / dms[i][1]` raises ZeroDivisionError on a zero
    -- denominator; the except-clause returns 0.0.
    if dd = 0 ∨ md = 0 ∨ sd = 0 then 0
    else
      let degrees : ℚ := (dn : ℚ) / (dd : ℚ)
      let minutes : ℚ := (mn : ℚ) / (md : ℚ) / 60
      let seconds : ℚ := (sn : ℚ) / (sd : ℚ) / 3600
      let decimal := degrees + minutes + seconds
      if ref = "S" ∨ ref = "W" then -decimal else decimal
  | .raws d m s =>
    let degrees := d
    let minutes := m / 60
    let seconds := s / 3600
    let decimal := degrees + minutes + seconds
    if ref = "S" ∨ ref = "W" then -decimal else decimal
  | .malformed => 0

/-- A value stored under a GPS reference tag (keys 1 / 3): either
`bytes` (on which `.decode()` succeeds) or some other runtime type, on
which the unconditional `.decode()` of the standard-tag path raises
`AttributeError` while the later `isinstance`-guarded path falls back to
`str(...)`. -/
inductive RefVal where
  | bytes (s : String) : RefVal
  | nonBytes (s : String) : RefVal
deriving DecidableEq, Repr

/-- The GPS IFD of an image, restricted to the keys the extractor reads:
`1 = GPSLatitudeRef`, `2 = GPSLatitude`, `3 = GPSLongitudeRef`,
`4 = GPSLongitude` (`piexif.GPSIFD.GPSLatitude` *is* the integer 2 and
`GPSLongitude` is 4, so the "raw keys 2 and 4" fallback reads the same
entries as the standard tags). -/
structure GpsData where
  k1 : Option RefVal
  k2 : Option DmsVal
  k3 : Option RefVal
  k4 : Option DmsVal
deriving Repr

/-- The inputs `get_gps_from_image` distinguishes:

* `unreadable` — `Image.open` / `piexif.load` raises;
* `noExifKey` — `'exif' not in image.info`;
* `withExif none` — the GPS section is absent or empty (falsy);
* `withExif (some g)` — a non-empty GPS section. -/
inductive ImageFile where
  | unreadable : ImageFile
  | noExifKey : ImageFile
  | withExif (gps : Option GpsData) : ImageFile

/-- The body of `get_gps_from_image`'s `try` block: `.error ()` stands
for an exception escaping to the `except` handlers at the bottom of the
function, `.ok none` for a `return None, None`, and `.ok (some (lat,
lon))` for a successful extraction. -/
def gpsFromImageCore : ImageFile → Except Unit (Option (ℚ × ℚ))
  | .unreadable => .error ()
  | .noExifKey => .ok none
  | .withExif none => .ok none
  | .withExif (some g) =>
    -- standard tags
    let gps_latitude := g.k2
    let gps_longitude := g.k4
    -- reference directions, standard path: unconditional `.decode()`
    match
      (match g.k1 with
       | none => Except.ok "N"
       | some (.bytes s) => Except.ok s
       | some (.nonBytes _) => Except.error ()),
      (match g.k3 with
       | none => Except.ok "E"
       | some (.bytes s) => Except.ok s
       | some (.nonBytes _) => Except.error ()) with
    | .error _, _ => .error ()
    | _, .error _ => .error ()
    | .ok latRef0, .ok lonRef0 =>
      -- raw fallback for keys 2 and 4 (same keys as the standard tags,
      -- so these assignments never change the values)
      let gps_latitude := if gps_latitude.isNone then g.k2 else gps_latitude
      let gps_longitude := if gps_longitude.isNone then g.k4 else gps_longitude
      -- reference directions, raw path (isinstance-guarded)
      let gps_latitude_ref :=
        match g.k1 with
        | none => latRef0
        | some (.bytes s) => s
        | some (.nonBytes s) => s
      let gps_longitude_ref :=
        match g.k3 with
        | none => lonRef0
        | some (.bytes s) => s
        | some (.nonBytes s) => s
      match gps_latitude, gps_longitude with
      | none, _ => .ok none
      | _, none => .ok none
      | some latDms, some lonDms =>
        let lat := get_decimal_from_dms latDms gps_latitude_ref
        let lon := get_decimal_from_dms lonDms gps_longitude_ref
        if validate_coordinates lat lon then .ok (some (lat, lon))
        else .ok none

/-- `FindNearestService.get_gps_from_image(image_path)`: the `try` body
with every exception caught and turned into `return None, None`.
The Python pair `(None, None)` is modelled as `none`, and a successful
pair `(lat, lon)` as `some (lat, lon)`. -/
def get_gps_from_image (img : ImageFile) : Option (ℚ × ℚ) :=
  match gpsFromImageCore img with
  | .ok r => r
  | .error _ => none

/-! ## Nearest-mast spatial resolution — `services/arcgis.py` -/

/-- A feature geometry as used by `find_nearest_mast`: the `'x'` /
`'y'` entries of the `geometry` dict.  A feature whose geometry is
falsy or lacks one of the keys is modelled with `geometry = none`
(the guard `if geometry and 'x' in geometry and 'y' in geometry`
treats those cases identically). -/
structure Geometry where
  x : ℚ
  y : ℚ
deriving DecidableEq, Repr

/-- A mast feature returned by the ArcGIS layer.  `fid` stands for the
attribute payload (`attributes` dict), which nearest-selection never
inspects; only the geometry takes part in the algorithm. -/
structure MastFeature where
  fid : Nat
  geometry : Option Geometry
deriving DecidableEq, Repr

/-- Squared planar Euclidean distance in UTM coordinates.  The source
computes `((tx - mx) ** 2 + (ty - my) ** 2) ** 0.5` and only ever
compares these values and reports the minimum; since the square root
is strictly monotone on nonnegative reals, comparing squared distances
selects the same feature, so distances are modelled throughout by
their squares. -/
def dist2 (tx ty : ℚ) (g : Geometry) : ℚ :=
  (tx - g.x) ^ 2 + (ty - g.y) ^ 2

/-- The `for mast in nearby_masts` selection loop of
`find_nearest_mast`: `acc` is the pair `(nearest_mast, min_distance)`,
starting at `(None, inf)` — modelled as `none`, since the first
geometry-bearing feature always beats infinity. -/
def scanNearest (tx ty : ℚ) : List MastFeature → Option (MastFeature × ℚ) →
    Option (MastFeature × ℚ)
  | [], acc => acc
  | m :: rest, acc =>
    match m.geometry with
    | none => scanNearest tx ty rest acc
    | some g =>
      let d := dist2 tx ty g
      match acc with
      | none => scanNearest tx ty rest (some (m, d))
      | some (m', best) =>
        if d < best then scanNearest tx ty rest (some (m, d))
        else scanNearest tx ty rest (some (m', best))

/-- Outcome of the `_make_authenticated_request` call inside
`get_mast_data_near_point`:

* `features fs` — a JSON response with a `'features'` key;
* `noFeaturesKey` — a successful response without one;
* `failure` — any raised exception (network, auth, HTTP error). -/
inductive QueryResult where
  | features (fs : List MastFeature) : QueryResult
  | noFeaturesKey : QueryResult
  | failure : QueryResult

/-- The remote ArcGIS service as an oracle: the coordinate
transformation performed by `pyproj` (`transform_gps_to_utm`, which
returns `(None, None)` when the transform raises) and the spatial
query response as a function of the query point and distance. -/
structure ArcGisEnv where
  toUTM : ℚ → ℚ → Option (ℚ × ℚ)
  queryNearPoint : ℚ → ℚ → ℚ → QueryResult

/-- `ArcGISService.get_mast_data_near_point(easting, northing,
distance)`: returns the feature list on success and `[]` both when the
response has no `'features'` key and when the request raises (the
`except` clause prints and returns `[]`). -/
def get_mast_data_near_point (env : ArcGisEnv) (easting northing distance : ℚ) :
    List MastFeature :=
  match env.queryNearPoint easting northing distance with
  | .features fs => fs
  | .noFeaturesKey => []
  | .failure => []

/-- Python float truthiness for an optional coordinate:
`None` and `0.0` are falsy. -/
def truthy : Option ℚ → Bool
  | none => false
  | some q => !(q == 0)

/-- `ArcGISService.find_nearest_mast(latitude, longitude,
max_distance)`, instrumented with the number of spatial queries issued
(the calls to `get_mast_data_near_point`).  The result pairs the
selected feature with the attached `'distance'` value (squared, see
`dist2`); the final `get_mast_attributes` call on the selected feature
only feeds a log line and is omitted. -/
def find_nearest_mast_traced (env : ArcGisEnv) (latitude longitude : Option ℚ)
    (max_distance : ℚ) : Option (MastFeature × ℚ) × Nat :=
  if ¬(truthy latitude = true) ∨ ¬(truthy longitude = true) then (none, 0)
  else
    match latitude, longitude with
    | some la, some lo =>
      match env.toUTM la lo with
      | none => (none, 0)
      | some (target_easting, target_northing) =>
        let nearby_masts :=
          get_mast_data_near_point env target_easting target_northing max_distance
        if nearby_masts.isEmpty then (none, 1)
        else
          match scanNearest target_easting target_northing nearby_masts none with
          | none => (none, 1)
          | some (m, d) => (some (m, d), 1)
    | _, _ => (none, 0)

/-- `ArcGISService.find_nearest_mast`: the returned value (projection
of the instrumented embedding). -/
def find_nearest_mast (env : ArcGisEnv) (latitude longitude : Option ℚ)
    (max_distance : ℚ) : Option (MastFeature × ℚ) :=
  (find_nearest_mast_traced env latitude longitude max_distance).1

/-! ## Content-hash ledger — `services/uploadtracker.py` -/

/-- One row of the semicolon-separated tracking CSV.  Of the thirteen
columns written by `ImageUploadTracker` the claims only inspect
`filename`, `filehash`, `uploadtime`, `updatetime` and `status`; the
remaining columns (Location, objektnummer, linje_navn, linje_id,
driftsmerking, erHistorisk, kilde, anleggstype) never influence any
lookup, cleanup or control-flow decision and are elided.  Timestamps
are abstract `Nat` instants (the code stores `datetime` strings whose
lexicographic order matches time order). -/
structure LedgerRow where
  filename : String
  filehash : String
  uploadtime : Nat
  updatetime : Nat
  status : String
deriving DecidableEq, Repr

/-- The ledger file contents, in file (= append) order. -/
abbrev Ledger := List LedgerRow

/-- `ImageUploadTracker.has_been_uploaded(filehash)`:
`df[df['filehash'] == filehash]` followed by `row.iloc[0]` — the first
matching row in file order; `(False, None, None)` when no row
matches. -/
def has_been_uploaded (ledger : Ledger) (filehash : String) :
    Bool × Option Nat × Option Nat :=
  match ledger.filter (fun r => r.filehash == filehash) with
  | [] => (false, none, none)
  | r :: _ => (true, some r.uploadtime, some r.updatetime)

/-- `ImageUploadTracker.log_upload(data)`: reads the CSV, concatenates
the new row at the end, writes it back. -/
def log_upload (ledger : Ledger) (row : LedgerRow) : Ledger :=
  ledger ++ [row]

/-! ## Ledger cleanup — `backup/toppbefaring.py`,
`ToppbefaringUploader.cleanup_duplicate_entries` -/

/-- One step of sorting the ledger by `updatetime` descending
(insertion into an already-sorted list). -/
def insertByUpdateDesc (r : LedgerRow) : Ledger → Ledger
  | [] => [r]
  | x :: xs =>
    if x.updatetime < r.updatetime then r :: x :: xs
    else x :: insertByUpdateDesc r xs

/-- `df.sort_values('updatetime', ascending=False)`, modelled as an
insertion sort.  The claims proved below use only that the result is a
permutation of the input ordered descendingly by `updatetime`, which
holds for any correct sort (pandas' default quicksort included). -/
def sortByUpdateDesc : Ledger → Ledger
  | [] => []
  | x :: xs => insertByUpdateDesc x (sortByUpdateDesc xs)

/-- `df.drop_duplicates(subset='filehash', keep='first')`: keep each
row whose `filehash` has not been seen in an earlier row. -/
def dropDupHash : Ledger → List String → Ledger
  | [], _ => []
  | r :: rest, seen =>
    if r.filehash ∈ seen then dropDupHash rest seen
    else r :: dropDupHash rest (r.filehash :: seen)

/-- `ToppbefaringUploader.cleanup_duplicate_entries()` (the
existing-file branch): sort by `updatetime` descending, drop duplicate
hashes keeping the first (most recent), write back, and return
`len(df) - len(df_cleaned)`.  Returns the cleaned ledger together with
the removed count. -/
def cleanup_duplicate_entries (ledger : Ledger) : Ledger × Nat :=
  let sorted := sortByUpdateDesc ledger
  let cleaned := dropDupHash sorted []
  (cleaned, ledger.length - cleaned.length)

/-! ## Per-file upload state machine — `uploadByObjektnumber.py`,
`ToppbefaringUploader.upload_toppbefaring_image` -/

/-- A record returned by the ImageGrid service (`check_image_exists` /
`upload_image`).  `id = none` models a falsy `.get('id')` (missing key
or empty id). -/
structure RemoteImage where
  id : Option String
deriving DecidableEq, Repr

/-- Outcome of `update_image_info`: a JSON payload on HTTP 200, the
literal string `"Update failed"` otherwise. -/
inductive UpdateResult where
  | ok : UpdateResult
  | updateFailed : UpdateResult
deriving DecidableEq, Repr

/-- The external responses one file's processing can observe, as a
deterministic oracle — the file's hash, the answers of the ImageGrid
and ArcGIS services for this file, and the wall clock used for
timestamps.  `raises = true` models any exception escaping the `try`
body after the dedup check (network failure, unreadable file, …),
which the `except` handler converts into a `failed` ledger row. -/
structure FileOracle where
  filename : String
  fileHash : String
  now : Nat
  raises : Bool
  checkExists : Option RemoteImage
  gpsLat : Option ℚ
  gpsLon : Option ℚ
  mastById : Option MastFeature
  nearestMast : Option (MastFeature × ℚ)
  uploadResult : Option RemoteImage
  updateResult : UpdateResult

/-- The row logged on the "No nearby mast found" early exit
(`upload_time`/`update_time` fall back to `datetime.now()` since the
dedup lookup returned `None` for both). -/
def noNearbyRow (orc : FileOracle) : LedgerRow :=
  { filename := orc.filename, filehash := orc.fileHash,
    uploadtime := orc.now, updatetime := orc.now,
    status := "No nearby mast found" }

/-- The row logged by the `except` handler. -/
def failedRow (orc : FileOracle) : LedgerRow :=
  { filename := orc.filename, filehash := orc.fileHash,
    uploadtime := orc.now, updatetime := orc.now,
    status := "failed" }

/-- The row logged after a successful metadata update.  The attribute
plumbing of the source (lines 136–166: merging `base_attributes` with
`mast_attributes`, GPS juggling) feeds only columns the claims never
read (Location, objektnummer, …, see `LedgerRow`); the columns kept
here are `imageinfo['filename']` (the `Name` attribute, set to the
file's basename by the folder loop), `imageinfo['filehash']`, the two
`datetime.now()` stamps, and `status if exist_in_imagegrid else
"ok"`. -/
def okRow (orc : FileOracle) (status : String) : LedgerRow :=
  { filename := orc.filename, filehash := orc.fileHash,
    uploadtime := orc.now, updatetime := orc.now,
    status := status }

/-- Steps 7–8 of the flow (`update_image_info` and the final
`log_upload`), shared by the exists-remotely and fresh-upload branches:
`image_id` is the id about to be used, `status` the value computed at
step 6, `existsRemotely` whether `exist_in_imagegrid` was truthy,
`retOnOk` the value `return upload_result` yields on full success
(`None` in the exists-remotely branch, where `upload_result` was never
assigned).  Returns the function result and the row to log, if any. -/
def finishUpdate (orc : FileOracle) (image_id : Option String) (status : String)
    (existsRemotely : Bool) (retOnOk : Option RemoteImage) :
    Option RemoteImage × Option LedgerRow :=
  match image_id with
  | none => (none, none)          -- `if not image_id: return None` — no log
  | some _ =>
    match orc.updateResult with
    | .updateFailed => (none, none)  -- `return None` — no log
    | .ok => (retOnOk, some (okRow orc (if existsRemotely then status else "ok")))

/-- Steps 5–8: the `if exist_in_imagegrid: … else: …` branch — reuse
the remote id, or resize+upload (`if not upload_result: return None`
logs nothing; its comment "continue to finally block for logging"
refers to a `finally` block that does not exist). -/
def transferAndUpdate (orc : FileOracle) : Option RemoteImage × Option LedgerRow :=
  match orc.checkExists with
  | some e =>
    let image_id := e.id
    let status := if image_id.isSome then "updated_image" else "exists_no_id"
    finishUpdate orc image_id status true none
  | none =>
    match orc.uploadResult with
    | none => (none, none)        -- failed upload: `return None`, no log
    | some ur => finishUpdate orc ur.id "new_image" false (some ur)

/-- The `try` body of `upload_toppbefaring_image` after the dedup
check, returning the function result and the single row handed to
`log_upload`, if any.  Mast attribute extraction
(`get_mast_attributes`) only populates columns the claims never read
and is not materialized. -/
def upload_body (orc : FileOracle) (find_mast : Bool) :
    Option RemoteImage × Option LedgerRow :=
  if orc.raises then (none, some (failedRow orc))
  else
    match orc.mastById with
    | none =>
      if find_mast && truthy orc.gpsLat && truthy orc.gpsLon then
        match orc.nearestMast with
        | some _ => transferAndUpdate orc
        | none => (none, some (noNearbyRow orc))  -- early exit, logged
      else transferAndUpdate orc                  -- mast_attributes stays {}
    | some _ => transferAndUpdate orc

/-- `ToppbefaringUploader.upload_toppbefaring_image`: dedup check
first (`has_been_uploaded`; found → `return None` with no write), then
the body, whose logged row — when present — is appended through
`log_upload`.  Returns the function result and the ledger after the
call. -/
def upload_toppbefaring_image (orc : FileOracle) (find_mast : Bool)
    (ledger : Ledger) : Option RemoteImage × Ledger :=
  if (has_been_uploaded ledger orc.fileHash).1 then (none, ledger)
  else
    match upload_body orc find_mast with
    | (v, none) => (v, ledger)
    | (v, some row) => (v, log_upload ledger row)

/-! ## Folder batch loop — `ToppbefaringUploader.upload_from_folder` -/

/-- The loop state: the three counters printed in the final summary
and the ledger. -/
structure BatchState where
  uploaded : Nat
  skipped : Nat
  failed : Nat
  ledger : Ledger

/-- One iteration of the folder loop: process the file, then classify —
a non-`None` result counts as uploaded; a `None` result counts as
skipped when `has_been_uploaded` (re-queried after the call) finds the
hash, as failed otherwise. -/
def folder_step (find_mast : Bool) (st : BatchState) (f : FileOracle) : BatchState :=
  let (result, ledger') := upload_toppbefaring_image f find_mast st.ledger
  match result with
  | none =>
    if (has_been_uploaded ledger' f.fileHash).1 then
      { st with skipped := st.skipped + 1, ledger := ledger' }
    else
      { st with failed := st.failed + 1, ledger := ledger' }
  | some _ => { st with uploaded := st.uploaded + 1, ledger := ledger' }

/-- `ToppbefaringUploader.upload_from_folder`: the files of the folder
in listing order, each paired with its external-response oracle,
processed strictly sequentially. -/
def upload_from_folder (find_mast : Bool) (files : List FileOracle)
    (st : BatchState) : BatchState :=
  files.foldl (folder_step find_mast) st

/-! ## Theorems -/

/-- Unfolding `validate_coordinates = true` into the GeoPoint
invariant. -/
theorem validate_coordinates_eq_true_iff (lat lon : ℚ) :
    validate_coordinates lat lon = true ↔
      (-90 ≤ lat ∧ lat ≤ 90) ∧ (-180 ≤ lon ∧ lon ≤ 180) ∧
        ¬(|lat| < 1/10000 ∧ |lon| < 1/10000) := by
  unfold validate_coordinates
  split_ifs with h1 h2 h3
  · exact iff_of_false (by simp) (fun hc => hc.2.2 h3)
  · exact iff_of_true rfl ⟨h1, h2, h3⟩
  · exact iff_of_false (by simp) (fun hc => h2 hc.2.1)
  · exact iff_of_false (by simp) (fun hc => h1 hc.1)

/-- A `.ok (some _)` outcome of the `try` body passed
`validate_coordinates`. -/
theorem validate_of_core (img : ImageFile) (p : ℚ × ℚ)
    (h : gpsFromImageCore img = .ok (some p)) :
    validate_coordinates p.1 p.2 = true := by
  cases img with
  | unreadable => simp [gpsFromImageCore] at h
  | noExifKey => simp [gpsFromImageCore] at h
  | withExif gps =>
    cases gps with
    | none => simp [gpsFromImageCore] at h
    | some g =>
      simp only [gpsFromImageCore] at h
      repeat' split at h
      all_goals simp_all
      all_goals subst h
      all_goals assumption

/-- Every `some` result of the extractor passed
`validate_coordinates`. -/
theorem validate_of_get_gps_some (img : ImageFile) (p : ℚ × ℚ)
    (h : get_gps_from_image img = some p) :
    validate_coordinates p.1 p.2 = true := by
  unfold get_gps_from_image at h
  split at h
  · rename_i r heq
    rw [h] at heq
    exact validate_of_core img p heq
  · exact absurd h (by simp)

/-- C4: whenever `get_gps_from_image` returns a coordinate pair rather
than `None`, the pair satisfies `-90 ≤ lat ≤ 90`, `-180 ≤ lon ≤ 180`
and `¬(|lat| < 0.0001 ∧ |lon| < 0.0001)`; any candidate violating the
invariant (the `(0,0)` sentinel included) is replaced by `None`. -/
theorem gps_extraction_valid (img : ImageFile) (lat lon : ℚ)
    (h : get_gps_from_image img = some (lat, lon)) :
    (-90 ≤ lat ∧ lat ≤ 90) ∧ (-180 ≤ lon ∧ lon ≤ 180) ∧
      ¬(|lat| < 1/10000 ∧ |lon| < 1/10000) :=
  (validate_coordinates_eq_true_iff lat lon).mp
    (validate_of_get_gps_some img (lat, lon) h)

/-- Witness for C4: a concrete image whose EXIF yields `(60.5, 5.5)`. -/
theorem gps_extraction_valid_witness :
    get_gps_from_image (.withExif (some ⟨some (.bytes "N"),
        some (.rationals (60, 1) (30, 1) (0, 1)), some (.bytes "E"),
        some (.raws 5 30 0)⟩)) = some (121/2, 11/2) ∧
      (-90 ≤ (121/2 : ℚ) ∧ (121/2 : ℚ) ≤ 90) ∧
        (-180 ≤ (11/2 : ℚ) ∧ (11/2 : ℚ) ≤ 180) ∧
        ¬(|(121/2 : ℚ)| < 1/10000 ∧ |(11/2 : ℚ)| < 1/10000) := by
  have h1 : get_decimal_from_dms (.rationals (60, 1) (30, 1) (0, 1)) "N" = 121/2 := by
    simp [get_decimal_from_dms]; norm_num
  have h2 : get_decimal_from_dms (.raws 5 30 0) "E" = 11/2 := by
    simp [get_decimal_from_dms]; norm_num
  have hval : validate_coordinates (121/2) (11/2) = true := by
    simp only [validate_coordinates]; norm_num [abs_of_nonneg]
  have himg : get_gps_from_image (.withExif (some ⟨some (.bytes "N"),
      some (.rationals (60, 1) (30, 1) (0, 1)), some (.bytes "E"),
      some (.raws 5 30 0)⟩)) = some (121/2, 11/2) := by
    simp [get_gps_from_image, gpsFromImageCore, h1, h2, hval]
  exact ⟨himg, gps_extraction_valid _ (121/2) (11/2) himg⟩

/-- C8: DMS-to-decimal conversion computes
`deg + min/60 + sec/3600`, negated exactly for the `'S'` and `'W'`
references, for both supported shapes (rational pairs with nonzero
denominators, and raw numeric triplets). -/
theorem dms_conversion_correct (dn dd mn md sn sd : ℤ) (d m s : ℚ) (ref : String)
    (hdd : dd ≠ 0) (hmd : md ≠ 0) (hsd : sd ≠ 0) :
    (get_decimal_from_dms (.rationals (dn, dd) (mn, md) (sn, sd)) ref =
      if ref = "S" ∨ ref = "W"
      then -((dn : ℚ)/(dd : ℚ) + ((mn : ℚ)/(md : ℚ))/60 + ((sn : ℚ)/(sd : ℚ))/3600)
      else (dn : ℚ)/(dd : ℚ) + ((mn : ℚ)/(md : ℚ))/60 + ((sn : ℚ)/(sd : ℚ))/3600) ∧
    (get_decimal_from_dms (.raws d m s) ref =
      if ref = "S" ∨ ref = "W"
      then -(d + m/60 + s/3600)
      else d + m/60 + s/3600) := by
  constructor
  · simp only [get_decimal_from_dms]
    rw [if_neg (by tauto)]
  · rfl

/-- Witness for C8: `60° 30' 0"` W is `-60.5`, and the raw triplet
`(5, 30, 0)` N is `5.5`. -/
theorem dms_conversion_correct_witness :
    (get_decimal_from_dms (.rationals (60, 1) (30, 1) (0, 1)) "W" =
      if "W" = "S" ∨ "W" = "W"
      then -(((60 : ℤ) : ℚ)/((1 : ℤ) : ℚ) + (((30 : ℤ) : ℚ)/((1 : ℤ) : ℚ))/60 +
        (((0 : ℤ) : ℚ)/((1 : ℤ) : ℚ))/3600)
      else ((60 : ℤ) : ℚ)/((1 : ℤ) : ℚ) + (((30 : ℤ) : ℚ)/((1 : ℤ) : ℚ))/60 +
        (((0 : ℤ) : ℚ)/((1 : ℤ) : ℚ))/3600) ∧
    (get_decimal_from_dms (.raws 5 30 0) "N" =
      if "N" = "S" ∨ "N" = "W"
      then -((5 : ℚ) + (30 : ℚ)/60 + (0 : ℚ)/3600)
      else (5 : ℚ) + (30 : ℚ)/60 + (0 : ℚ)/3600) :=
  dms_conversion_correct 60 1 30 1 0 1 5 30 0 "W" (by decide) (by decide) (by decide)
    |>.imp id (fun _ => (dms_conversion_correct 60 1 30 1 0 1 5 30 0 "N"
      (by decide) (by decide) (by decide)).2)

/-- Counterexample to C7: a zero-denominator latitude (a
`ZeroDivisionError` parse failure inside `get_decimal_from_dms`)
degrades to the coordinate `0.0`, and the extractor returns the pair
`(0, 5.5)` — not `None`. -/
theorem gps_parse_error_not_none :
    dmsParseError (.rationals (60, 0) (0, 1) (0, 1)) = true ∧
    get_gps_from_image (.withExif (some ⟨some (.bytes "N"),
        some (.rationals (60, 0) (0, 1) (0, 1)), some (.bytes "E"),
        some (.raws 5 30 0)⟩)) = some (0, 11/2) := by
  have h1 : get_decimal_from_dms (.rationals (60, 0) (0, 1) (0, 1)) "N" = 0 := by
    simp [get_decimal_from_dms]
  have h2 : get_decimal_from_dms (.raws 5 30 0) "E" = 11/2 := by
    simp [get_decimal_from_dms]; norm_num
  have hval : validate_coordinates 0 (11/2) = true := by
    simp only [validate_coordinates]; norm_num [abs_of_nonneg]
  exact ⟨rfl, by simp [get_gps_from_image, gpsFromImageCore, h1, h2, hval]⟩

/-- C7 (amended): the extractor never raises — every exception escaping
the `try` body is caught and yields `None` — and a DMS-level parse
error degrades to the value `0.0` (not to `None`). -/
theorem gps_extraction_never_raises :
    (∀ img : ImageFile, (∃ e, gpsFromImageCore img = .error e) →
       get_gps_from_image img = none) ∧
    (∀ (dms : DmsVal) (ref : String), dmsParseError dms = true →
       get_decimal_from_dms dms ref = 0) := by
  constructor
  · rintro img ⟨e, he⟩
    simp [get_gps_from_image, he]
  · intro dms ref h
    match dms with
    | .rationals (dn, dd) (mn, md) (sn, sd) =>
      simp only [dmsParseError, Bool.or_eq_true, beq_iff_eq] at h
      simp only [get_decimal_from_dms]
      rw [if_pos (by tauto)]
    | .raws d m s => simp [dmsParseError] at h
    | .malformed => rfl

/-- Witness for C7 (amended): an unreadable image file gives `None`,
and a malformed DMS value converts to `0`. -/
theorem gps_extraction_never_raises_witness :
    get_gps_from_image .unreadable = none ∧
      get_decimal_from_dms .malformed "N" = 0 :=
  ⟨gps_extraction_never_raises.1 .unreadable ⟨(), rfl⟩,
   gps_extraction_never_raises.2 .malformed "N" (by decide)⟩

/-- An environment whose spatial query always succeeds with no
features; used to exhibit concrete runs. -/
def constEnv : ArcGisEnv :=
  { toUTM := fun _ _ => none, queryNearPoint := fun _ _ _ => .noFeaturesKey }

/-- An environment whose coordinate transform is the identity and
whose spatial query always fails (network/service error). -/
def envFailing : ArcGisEnv :=
  { toUTM := fun a b => some (a, b), queryNearPoint := fun _ _ _ => .failure }

/-- C9: a falsy latitude or longitude (`None` or exactly `0.0`) makes
`find_nearest_mast` return `None` before issuing any spatial query —
even though a point on the equator or prime meridian with the other
coordinate away from zero satisfies the GeoPoint validity
invariant. -/
theorem equator_gps_treated_missing :
    (∀ (env : ArcGisEnv) (lat lon : Option ℚ) (maxd : ℚ),
       truthy lat = false ∨ truthy lon = false →
       find_nearest_mast_traced env lat lon maxd = (none, 0)) ∧
    (∀ lon : ℚ, 1/10000 ≤ |lon| → |lon| ≤ 180 →
       validate_coordinates 0 lon = true) := by
  constructor
  · intro env lat lon maxd h
    unfold find_nearest_mast_traced
    rw [if_pos (by rcases h with h | h <;> simp [h])]
  · intro lon h1 h2
    rw [validate_coordinates_eq_true_iff]
    exact ⟨⟨by norm_num, by norm_num⟩, abs_le.mp h2,
      fun hc => absurd hc.2 (not_lt.mpr h1)⟩

/-- Witness for C9: latitude exactly `0` with longitude `5` is never
queried, yet `(0, 5)` is a valid GeoPoint. -/
theorem equator_gps_treated_missing_witness :
    find_nearest_mast_traced constEnv (some 0) (some 5) 100 = (none, 0) ∧
      validate_coordinates 0 5 = true :=
  ⟨equator_gps_treated_missing.1 constEnv (some 0) (some 5) 100
     (Or.inl (by simp [truthy])),
   equator_gps_treated_missing.2 5 (by rw [abs_of_nonneg] <;> norm_num)
     (by rw [abs_of_nonneg] <;> norm_num)⟩

/-- Counterexample to C6: when the spatial query raises (network or
remote-service failure), `get_mast_data_near_point` swallows the
exception and returns `[]`, and `find_nearest_mast` returns `None` —
it does not propagate any error to its caller, and its `None` is
indistinguishable from "no data found". -/
theorem service_error_returns_none :
    get_mast_data_near_point envFailing 100 200 50 = [] ∧
    find_nearest_mast envFailing (some 62) (some 6) 100 = none := by
  constructor
  · rfl
  · simp [find_nearest_mast, find_nearest_mast_traced, truthy, envFailing,
      get_mast_data_near_point]

/-- C6 (amended): a network/service failure during the spatial query
degrades to an empty feature list inside `get_mast_data_near_point`,
so `find_nearest_mast` returns `None` for that case, the same value as
for a successful query finding no data; no error reaches the
caller. -/
theorem service_error_degrades (env : ArcGisEnv) (la lo te tn maxd : ℚ)
    (hla : la ≠ 0) (hlo : lo ≠ 0)
    (htr : env.toUTM la lo = some (te, tn))
    (hq : env.queryNearPoint te tn maxd = .failure) :
    get_mast_data_near_point env te tn maxd = [] ∧
    find_nearest_mast env (some la) (some lo) maxd = none := by
  have h1 : get_mast_data_near_point env te tn maxd = [] := by
    unfold get_mast_data_near_point
    rw [hq]
  refine ⟨h1, ?_⟩
  unfold find_nearest_mast find_nearest_mast_traced
  rw [if_neg (by simp [truthy, hla, hlo])]
  simp [htr, h1]

/-- Witness for C6 (amended): the always-failing environment at a
concrete point. -/
theorem service_error_degrades_witness :
    get_mast_data_near_point envFailing 62 6 100 = [] ∧
    find_nearest_mast envFailing (some 62) (some 6) 100 = none :=
  service_error_degrades envFailing 62 6 62 6 100
    (by norm_num) (by norm_num) rfl rfl

/-- Step equation for `has_been_uploaded` on a cons cell. -/
theorem has_been_uploaded_cons (r : LedgerRow) (rest : Ledger) (h : String) :
    has_been_uploaded (r :: rest) h =
      if r.filehash == h then (true, some r.uploadtime, some r.updatetime)
      else has_been_uploaded rest h := by
  unfold has_been_uploaded
  by_cases hh : r.filehash == h <;> simp [List.filter_cons, hh]

/-- C10: with several rows sharing a hash, `has_been_uploaded` reports
the `uploadtime` and `updatetime` of the first matching row in file
order — the earliest appended entry. -/
theorem lookup_returns_first_row (ledger : Ledger) (h : String)
    (i : Fin ledger.length)
    (hhash : (ledger.get i).filehash = h)
    (hfirst : ∀ j : Fin ledger.length, (j : ℕ) < (i : ℕ) →
      (ledger.get j).filehash ≠ h) :
    has_been_uploaded ledger h =
      (true, some (ledger.get i).uploadtime, some (ledger.get i).updatetime) := by
  induction ledger with
  | nil => exact absurd i.2 (by simp)
  | cons r rest ih =>
    rw [has_been_uploaded_cons]
    rcases i with ⟨iv, hi⟩
    cases iv with
    | zero =>
      simp only [List.get] at hhash ⊢
      rw [if_pos (by simp [hhash])]
    | succ n =>
      have hn : n < rest.length := by simpa using hi
      have hr : r.filehash ≠ h := by
        have h0 := hfirst ⟨0, by simp⟩ (by simp)
        simpa using h0
      rw [if_neg (by simpa using hr)]
      have hhash' : (rest.get ⟨n, hn⟩).filehash = h := by
        simpa using hhash
      have hfirst' : ∀ j : Fin rest.length, (j : ℕ) < n →
          (rest.get j).filehash ≠ h := by
        intro j hj
        have := hfirst ⟨(j : ℕ) + 1, by simp [Nat.succ_lt_succ j.2]⟩
          (by simpa using hj)
        simpa using this
      have := ih ⟨n, hn⟩ hhash' hfirst'
      simpa using this

/-- Witness for C10: two rows with the same hash; the lookup returns
the times of the first. -/
theorem lookup_returns_first_row_witness :
    has_been_uploaded
        [⟨"a.jpg", "h1", 1, 2, "ok"⟩, ⟨"b.jpg", "h1", 5, 6, "failed"⟩] "h1" =
      (true, some 1, some 2) := by
  have := lookup_returns_first_row
    [⟨"a.jpg", "h1", 1, 2, "ok"⟩, ⟨"b.jpg", "h1", 5, 6, "failed"⟩] "h1"
    ⟨0, by simp⟩ (by simp) (by intro j hj; simp at hj)
  simpa using this

/-- Descending order by `updatetime` (what
`sort_values('updatetime', ascending=False)` establishes). -/
def SortedByUpdateDesc (l : Ledger) : Prop :=
  List.Pairwise (fun a b => b.updatetime ≤ a.updatetime) l

theorem insertByUpdateDesc_perm (r : LedgerRow) (l : Ledger) :
    (insertByUpdateDesc r l).Perm (r :: l) := by
  induction l with
  | nil => simp [insertByUpdateDesc]
  | cons x xs ih =>
    unfold insertByUpdateDesc
    split_ifs with hc
    · exact List.Perm.refl _
    · exact List.Perm.trans (ih.cons x) (List.Perm.swap r x xs)

theorem sortByUpdateDesc_perm (l : Ledger) : (sortByUpdateDesc l).Perm l := by
  induction l with
  | nil => simp [sortByUpdateDesc]
  | cons x xs ih =>
    exact List.Perm.trans (insertByUpdateDesc_perm x (sortByUpdateDesc xs)) (ih.cons x)

theorem insertByUpdateDesc_sorted (r : LedgerRow) (l : Ledger)
    (hs : SortedByUpdateDesc l) : SortedByUpdateDesc (insertByUpdateDesc r l) := by
  induction l with
  | nil => simp [insertByUpdateDesc, SortedByUpdateDesc]
  | cons x xs ih =>
    rcases hs with _ | ⟨hx, hxs⟩
    unfold insertByUpdateDesc
    split_ifs with hc
    · refine List.Pairwise.cons ?_ (List.Pairwise.cons hx hxs)
      intro y hy
      rcases List.mem_cons.mp hy with rfl | hy2
      · exact le_of_lt hc
      · exact le_trans (hx y hy2) (le_of_lt hc)
    · refine List.Pairwise.cons ?_ (ih hxs)
      intro y hy
      have hy' : y ∈ r :: xs := (insertByUpdateDesc_perm r xs).subset hy
      rcases List.mem_cons.mp hy' with rfl | hy2
      · exact le_of_not_lt hc
      · exact hx y hy2

theorem sortByUpdateDesc_sorted (l : Ledger) :
    SortedByUpdateDesc (sortByUpdateDesc l) := by
  induction l with
  | nil => simp [sortByUpdateDesc, SortedByUpdateDesc]
  | cons x xs ih => exact insertByUpdateDesc_sorted x (sortByUpdateDesc xs) ih

theorem dropDupHash_length_le : ∀ (s : Ledger) (seen : List String),
    (dropDupHash s seen).length ≤ s.length := by
  intro s
  induction s with
  | nil => intro seen; simp [dropDupHash]
  | cons r rest ih =>
    intro seen
    unfold dropDupHash
    split_ifs with hin
    · exact le_trans (ih seen) (Nat.le_succ _)
    · simpa using ih (r.filehash :: seen)

theorem dropDupHash_subset : ∀ (s : Ledger) (seen : List String),
    ∀ r ∈ dropDupHash s seen, r ∈ s := by
  intro s
  induction s with
  | nil => intro seen r hr; simp [dropDupHash] at hr
  | cons a rest ih =>
    intro seen r hr
    unfold dropDupHash at hr
    split_ifs at hr with hin
    · exact List.mem_cons_of_mem a (ih seen r hr)
    · rcases List.mem_cons.mp hr with rfl | hr2
      · exact List.mem_cons_self _ _
      · exact List.mem_cons_of_mem a (ih (a.filehash :: seen) r hr2)

theorem dropDupHash_filter_seen : ∀ (s : Ledger) (seen : List String) (h : String),
    h ∈ seen → (dropDupHash s seen).filter (fun x => x.filehash == h) = [] := by
  intro s
  induction s with
  | nil => intro seen h _; simp [dropDupHash]
  | cons a rest ih =>
    intro seen h hmem
    unfold dropDupHash
    split_ifs with hin
    · exact ih seen h hmem
    · have hne : a.filehash ≠ h := fun he => hin (he ▸ hmem)
      rw [List.filter_cons_of_neg (by simpa using hne)]
      exact ih (a.filehash :: seen) h (List.mem_cons_of_mem _ hmem)

theorem dropDupHash_first : ∀ (s : Ledger) (seen : List String) (h : String),
    SortedByUpdateDesc s → h ∉ seen → h ∈ s.map (fun x => x.filehash) →
    ∃ r : LedgerRow,
      (dropDupHash s seen).filter (fun x => x.filehash == h) = [r] ∧
      r ∈ s ∧ r.filehash = h ∧
      ∀ x ∈ s, x.filehash = h → x.updatetime ≤ r.updatetime := by
  intro s
  induction s with
  | nil => intro seen h _ _ hmem; simp at hmem
  | cons a rest ih =>
    intro seen h hs hseen hmem
    rcases hs with _ | ⟨ha, hrest⟩
    unfold dropDupHash
    split_ifs with hin
    · have hne : a.filehash ≠ h := fun he => hseen (he ▸ hin)
      have hmem' : h ∈ rest.map (fun x => x.filehash) := by
        rcases List.mem_map.mp hmem with ⟨x, hx, hxh⟩
        rcases List.mem_cons.mp hx with rfl | hx2
        · exact absurd hxh hne
        · exact List.mem_map.mpr ⟨x, hx2, hxh⟩
      obtain ⟨r, hfil, hr, hrh, hbound⟩ := ih seen h hrest hseen hmem'
      exact ⟨r, hfil, List.mem_cons_of_mem a hr, hrh,
        fun x hx hxh => by
          rcases List.mem_cons.mp hx with rfl | hx2
          · exact absurd hxh hne
          · exact hbound x hx2 hxh⟩
    · by_cases heq : a.filehash = h
      · refine ⟨a, ?_, List.mem_cons_self a rest, heq, ?_⟩
        · rw [List.filter_cons_of_pos (by simpa using heq)]
          rw [dropDupHash_filter_seen rest (a.filehash :: seen) h
            (by simp [heq])]
        · intro x hx _
          rcases List.mem_cons.mp hx with rfl | hx2
          · exact le_refl _
          · exact ha x hx2
      · have hmem' : h ∈ rest.map (fun x => x.filehash) := by
          rcases List.mem_map.mp hmem with ⟨x, hx, hxh⟩
          rcases List.mem_cons.mp hx with rfl | hx2
          · exact absurd hxh heq
          · exact List.mem_map.mpr ⟨x, hx2, hxh⟩
        have hseen' : h ∉ a.filehash :: seen := by
          intro hc
          rcases List.mem_cons.mp hc with rfl | hc2
          · exact heq rfl
          · exact hseen hc2
        obtain ⟨r, hfil, hr, hrh, hbound⟩ :=
          ih (a.filehash :: seen) h hrest hseen' hmem'
        refine ⟨r, ?_, List.mem_cons_of_mem a hr, hrh, ?_⟩
        · rw [List.filter_cons_of_neg (by simpa using heq)]
          exact hfil
        · intro x hx hxh
          rcases List.mem_cons.mp hx with rfl | hx2
          · exact absurd hxh heq
          · exact hbound x hx2 hxh

/-- C5: after `cleanup_duplicate_entries`, every content hash present
before has exactly one remaining entry; that entry is one of the prior
entries for the hash and carries the maximum `update_time` among them;
the returned count is the number of removed rows. -/
theorem cleanup_keeps_latest (ledger : Ledger) :
    (cleanup_duplicate_entries ledger).2 +
        (cleanup_duplicate_entries ledger).1.length = ledger.length ∧
    ∀ h : String, h ∈ ledger.map (fun x => x.filehash) →
      ∃ r : LedgerRow,
        (cleanup_duplicate_entries ledger).1.filter
            (fun x => x.filehash == h) = [r] ∧
        r ∈ ledger ∧ r.filehash = h ∧
        ∀ x ∈ ledger, x.filehash = h → x.updatetime ≤ r.updatetime := by
  have hperm := sortByUpdateDesc_perm ledger
  constructor
  · have hle : (dropDupHash (sortByUpdateDesc ledger) []).length ≤ ledger.length := by
      calc (dropDupHash (sortByUpdateDesc ledger) []).length
          ≤ (sortByUpdateDesc ledger).length := dropDupHash_length_le _ _
        _ = ledger.length := hperm.length_eq
    simpa [cleanup_duplicate_entries] using Nat.sub_add_cancel hle
  · intro h hmem
    have hmem' : h ∈ (sortByUpdateDesc ledger).map (fun x => x.filehash) :=
      ((hperm.map (fun x => x.filehash)).mem_iff).mpr hmem
    obtain ⟨r, hfil, hr, hrh, hbound⟩ :=
      dropDupHash_first (sortByUpdateDesc ledger) [] h
        (sortByUpdateDesc_sorted ledger) (by simp) hmem'
    exact ⟨r, hfil, hperm.subset hr, hrh,
      fun x hx hxh => hbound x (hperm.symm.subset hx) hxh⟩

/-- Witness for C5: three rows, two sharing a hash; cleanup keeps the
later entry for the duplicated hash and reports one removal. -/
theorem cleanup_keeps_latest_witness :
    (cleanup_duplicate_entries
          [⟨"a.jpg", "h1", 1, 1, "ok"⟩, ⟨"b.jpg", "h1", 5, 9, "failed"⟩,
            ⟨"c.jpg", "h2", 3, 3, "ok"⟩]).2 +
        (cleanup_duplicate_entries
          [⟨"a.jpg", "h1", 1, 1, "ok"⟩, ⟨"b.jpg", "h1", 5, 9, "failed"⟩,
            ⟨"c.jpg", "h2", 3, 3, "ok"⟩]).1.length = 3 ∧
      ∃ r : LedgerRow,
        (cleanup_duplicate_entries
            [⟨"a.jpg", "h1", 1, 1, "ok"⟩, ⟨"b.jpg", "h1", 5, 9, "failed"⟩,
              ⟨"c.jpg", "h2", 3, 3, "ok"⟩]).1.filter
            (fun x => x.filehash == "h1") = [r] ∧
        r ∈ [⟨"a.jpg", "h1", 1, 1, "ok"⟩, ⟨"b.jpg", "h1", 5, 9, "failed"⟩,
              (⟨"c.jpg", "h2", 3, 3, "ok"⟩ : LedgerRow)] ∧ r.filehash = "h1" ∧
        ∀ x ∈ [⟨"a.jpg", "h1", 1, 1, "ok"⟩, ⟨"b.jpg", "h1", 5, 9, "failed"⟩,
              (⟨"c.jpg", "h2", 3, 3, "ok"⟩ : LedgerRow)],
          x.filehash = "h1" → x.updatetime ≤ r.updatetime :=
  ⟨(cleanup_keeps_latest _).1,
   (cleanup_keeps_latest _).2 "h1" (by simp)⟩

/-- The geometry-bearing features of a query result, each paired with
its (squared) distance to the target point, in response order — the
values the selection loop actually compares. -/
def decorate (tx ty : ℚ) : List MastFeature → List (MastFeature × ℚ)
  | [] => []
  | m :: rest =>
    match m.geometry with
    | none => decorate tx ty rest
    | some g => (m, dist2 tx ty g) :: decorate tx ty rest

/-- The selection loop on pre-decorated pairs. -/
def scanPairs : List (MastFeature × ℚ) → Option (MastFeature × ℚ) →
    Option (MastFeature × ℚ)
  | [], acc => acc
  | (m, d) :: rest, acc =>
    match acc with
    | none => scanPairs rest (some (m, d))
    | some (m', best) =>
      if d < best then scanPairs rest (some (m, d))
      else scanPairs rest (some (m', best))

theorem scanNearest_eq_scanPairs (tx ty : ℚ) : ∀ (feats : List MastFeature)
    (acc : Option (MastFeature × ℚ)),
    scanNearest tx ty feats acc = scanPairs (decorate tx ty feats) acc := by
  intro feats
  induction feats with
  | nil => intro acc; rfl
  | cons m rest ih =>
    intro acc
    unfold scanNearest decorate
    cases hg : m.geometry with
    | none => simp [ih]
    | some g =>
      cases acc with
      | none => simp [scanPairs, ih]
      | some p =>
        rcases p with ⟨m', best⟩
        simp only [scanPairs]
        split_ifs <;> simp [ih]

theorem scanPairs_acc_spec : ∀ (pairs : List (MastFeature × ℚ))
    (p0 : MastFeature × ℚ),
    ∃ (k : ℕ) (hk : k < (p0 :: pairs).length),
      scanPairs pairs (some p0) = some ((p0 :: pairs).get ⟨k, hk⟩) ∧
      (∀ (j : ℕ) (hj : j < (p0 :: pairs).length),
        ((p0 :: pairs).get ⟨k, hk⟩).2 ≤ ((p0 :: pairs).get ⟨j, hj⟩).2) ∧
      (∀ (j : ℕ) (hj : j < (p0 :: pairs).length), j < k →
        ((p0 :: pairs).get ⟨k, hk⟩).2 < ((p0 :: pairs).get ⟨j, hj⟩).2) := by
  intro pairs
  induction pairs with
  | nil =>
    intro p0
    refine ⟨0, by simp, rfl, ?_, ?_⟩
    · intro j hj
      simp at hj
      subst hj
      exact le_refl _
    · intro j hj hjk
      omega
  | cons q rest ih =>
    intro p0
    rcases q with ⟨m, d⟩
    rcases p0 with ⟨m0, d0⟩
    have hstep : scanPairs ((m, d) :: rest) (some (m0, d0)) =
        if d < d0 then scanPairs rest (some (m, d))
        else scanPairs rest (some (m0, d0)) := rfl
    rw [hstep]
    split_ifs with hc
    · obtain ⟨k', hk', hscan, hmin, hstr⟩ := ih (m, d)
      refine ⟨k' + 1, by simpa using Nat.succ_lt_succ hk', ?_, ?_, ?_⟩
      · exact hscan
      · intro j hj
        cases j with
        | zero =>
          exact le_trans (hmin 0 (by simp)) (le_of_lt hc)
        | succ j' =>
          exact hmin j' (by simpa using Nat.lt_of_succ_lt_succ hj)
      · intro j hj hjk
        cases j with
        | zero =>
          exact lt_of_le_of_lt (hmin 0 (by simp)) hc
        | succ j' =>
          exact hstr j' (by simpa using Nat.lt_of_succ_lt_succ hj)
            (Nat.lt_of_succ_lt_succ hjk)
    · have hd : d0 ≤ d := not_lt.mp hc
      obtain ⟨k', hk', hscan, hmin, hstr⟩ := ih (m0, d0)
      cases k' with
      | zero =>
        refine ⟨0, by simp, hscan, ?_, ?_⟩
        · intro j hj
          cases j with
          | zero => exact le_refl _
          | succ j' =>
            cases j' with
            | zero => exact hd
            | succ j'' =>
              exact hmin (j'' + 1) (by simpa using Nat.lt_of_succ_lt_succ hj)
        · intro j hj hjk
          omega
      | succ kv =>
        refine ⟨kv + 2, by simpa using Nat.succ_lt_succ hk', ?_, ?_, ?_⟩
        · exact hscan
        · intro j hj
          cases j with
          | zero => exact hmin 0 (by simp)
          | succ j' =>
            cases j' with
            | zero => exact le_trans (hmin 0 (by simp)) hd
            | succ j'' =>
              exact hmin (j'' + 1) (by simpa using Nat.lt_of_succ_lt_succ hj)
        · intro j hj hjk
          cases j with
          | zero => exact hstr 0 (by simp) (Nat.succ_pos kv)
          | succ j' =>
            cases j' with
            | zero =>
              exact lt_of_lt_of_le (hstr 0 (by simp) (Nat.succ_pos kv)) hd
            | succ j'' =>
              exact hstr (j'' + 1) (by simpa using Nat.lt_of_succ_lt_succ hj)
                (by omega)

theorem scanPairs_none_spec (L : List (MastFeature × ℚ)) (hL : L ≠ []) :
    ∃ (k : ℕ) (hk : k < L.length),
      scanPairs L none = some (L.get ⟨k, hk⟩) ∧
      (∀ (j : ℕ) (hj : j < L.length),
        (L.get ⟨k, hk⟩).2 ≤ (L.get ⟨j, hj⟩).2) ∧
      (∀ (j : ℕ) (hj : j < L.length), j < k →
        (L.get ⟨k, hk⟩).2 < (L.get ⟨j, hj⟩).2) := by
  match L, hL with
  | (m, d) :: rest, _ =>
    have hstep : scanPairs ((m, d) :: rest) none = scanPairs rest (some (m, d)) := rfl
    rw [hstep]
    exact scanPairs_acc_spec rest (m, d)

theorem decorate_length_eq (tx ty : ℚ) : ∀ (feats : List MastFeature),
    (∀ m ∈ feats, m.geometry.isSome = true) →
    (decorate tx ty feats).length = feats.length := by
  intro feats
  induction feats with
  | nil => intro _; rfl
  | cons m rest ih =>
    intro hg
    obtain ⟨g, hgm⟩ :=
      Option.isSome_iff_exists.mp (hg m (List.mem_cons_self m rest))
    simp [decorate, hgm, ih (fun x hx => hg x (List.mem_cons_of_mem m hx))]

theorem decorate_get (tx ty : ℚ) : ∀ (feats : List MastFeature),
    (∀ m ∈ feats, m.geometry.isSome = true) →
    ∀ (k : ℕ) (hk : k < feats.length) (hk2 : k < (decorate tx ty feats).length),
    ∃ g : Geometry, (feats.get ⟨k, hk⟩).geometry = some g ∧
      (decorate tx ty feats).get ⟨k, hk2⟩ = (feats.get ⟨k, hk⟩, dist2 tx ty g) := by
  intro feats
  induction feats with
  | nil => intro _ k hk; simp at hk
  | cons m rest ih =>
    intro hg k hk hk2
    obtain ⟨g, hgm⟩ :=
      Option.isSome_iff_exists.mp (hg m (List.mem_cons_self m rest))
    have hdec : decorate tx ty (m :: rest) =
        (m, dist2 tx ty g) :: decorate tx ty rest := by
      simp [decorate, hgm]
    cases k with
    | zero => exact ⟨g, by simpa using hgm, by simp [hdec]⟩
    | succ n =>
      have hn : n < rest.length := by simpa using hk
      have hn2 : n < (decorate tx ty rest).length := by
        rw [hdec] at hk2
        simpa using hk2
      obtain ⟨g', hg', hget⟩ :=
        ih (fun x hx => hg x (List.mem_cons_of_mem m hx)) n hn hn2
      refine ⟨g', by simpa using hg', ?_⟩
      have : (decorate tx ty (m :: rest)).get ⟨n + 1, hk2⟩ =
          (decorate tx ty rest).get ⟨n, hn2⟩ := by
        simp [hdec]
      rw [this, hget]
      simp

/-- C3: on a successful radius query, `find_nearest_mast` returns the
feature whose geometry minimizes planar Euclidean distance to the
projected query point (distances compared via their squares, see
`dist2`), ties resolved to the first feature in service response
order, with the minimum distance attached; an empty query result gives
`None`. -/
theorem find_nearest_selects_min (env : ArcGisEnv) (la lo te tn maxd : ℚ)
    (feats : List MastFeature)
    (hla : la ≠ 0) (hlo : lo ≠ 0)
    (htr : env.toUTM la lo = some (te, tn))
    (hq : env.queryNearPoint te tn maxd = .features feats)
    (hg : ∀ m ∈ feats, m.geometry.isSome = true) :
    (feats = [] → find_nearest_mast env (some la) (some lo) maxd = none) ∧
    (feats ≠ [] → ∃ (k : ℕ) (hk : k < feats.length) (g : Geometry),
      (feats.get ⟨k, hk⟩).geometry = some g ∧
      find_nearest_mast env (some la) (some lo) maxd =
        some (feats.get ⟨k, hk⟩, dist2 te tn g) ∧
      (∀ (j : ℕ) (hj : j < feats.length) (gj : Geometry),
        (feats.get ⟨j, hj⟩).geometry = some gj →
        dist2 te tn g ≤ dist2 te tn gj) ∧
      (∀ (j : ℕ) (hj : j < feats.length) (gj : Geometry), j < k →
        (feats.get ⟨j, hj⟩).geometry = some gj →
        dist2 te tn g < dist2 te tn gj)) := by
  have hnear : get_mast_data_near_point env te tn maxd = feats := by
    unfold get_mast_data_near_point
    rw [hq]
  have hbase : find_nearest_mast env (some la) (some lo) maxd =
      (if feats.isEmpty then none
       else match scanNearest te tn feats none with
            | none => none
            | some (m, d) => some (m, d)) := by
    unfold find_nearest_mast find_nearest_mast_traced
    rw [if_neg (by simp [truthy, hla, hlo])]
    simp only [htr, hnear]
    split_ifs with he
    · rfl
    · cases scanNearest te tn feats none with
      | none => rfl
      | some p => rcases p with ⟨m, d⟩; rfl
  constructor
  · intro hfe
    subst hfe
    simpa using hbase
  · intro hfe
    have hlen := decorate_length_eq te tn feats hg
    have hdne : decorate te tn feats ≠ [] := by
      intro hc
      rw [hc] at hlen
      exact hfe (List.length_eq_zero.mp hlen.symm)
    obtain ⟨k, hk, hscan, hmin, hstr⟩ := scanPairs_none_spec _ hdne
    have hkf : k < feats.length := hlen ▸ hk
    obtain ⟨g, hgk, hgetk⟩ := decorate_get te tn feats hg k hkf hk
    refine ⟨k, hkf, g, hgk, ?_, ?_, ?_⟩
    · rw [hbase, if_neg (by simpa using hfe)]
      rw [scanNearest_eq_scanPairs, hscan, hgetk]
    · intro j hj gj hgj
      have hj2 : j < (decorate te tn feats).length := hlen ▸ hj
      obtain ⟨g', hg', hgetj⟩ := decorate_get te tn feats hg j hj hj2
      have hgg : g' = gj := by
        rw [hg'] at hgj
        exact Option.some.inj hgj
      have := hmin j hj2
      rw [hgetk, hgetj] at this
      simpa [hgg] using this
    · intro j hj gj hjk hgj
      have hj2 : j < (decorate te tn feats).length := hlen ▸ hj
      obtain ⟨g', hg', hgetj⟩ := decorate_get te tn feats hg j hj hj2
      have hgg : g' = gj := by
        rw [hg'] at hgj
        exact Option.some.inj hgj
      have := hstr j hj2 hjk
      rw [hgetk, hgetj] at this
      simpa [hgg] using this

/-- An environment for exercising the nearest-selection theorem: the
identity transform and a fixed two-feature response with the second
feature closer. -/
def envTwoMasts : ArcGisEnv :=
  { toUTM := fun a b => some (a, b),
    queryNearPoint := fun _ _ _ =>
      .features [⟨1, some ⟨3, 4⟩⟩, ⟨2, some ⟨0, 1⟩⟩] }

/-- Witness for C3: two features at squared distances 18 and 0 from
the query point `(1, 1)`; the nearest-selection property holds for
this run. -/
theorem find_nearest_selects_min_witness :
    (([⟨1, some ⟨3, 4⟩⟩, ⟨2, some ⟨0, 1⟩⟩] : List MastFeature) = [] →
      find_nearest_mast envTwoMasts (some 1) (some 1) 100 = none) ∧
    (([⟨1, some ⟨3, 4⟩⟩, ⟨2, some ⟨0, 1⟩⟩] : List MastFeature) ≠ [] →
      ∃ (k : ℕ)
        (hk : k < ([⟨1, some ⟨3, 4⟩⟩, ⟨2, some ⟨0, 1⟩⟩] : List MastFeature).length)
        (g : Geometry),
      (([⟨1, some ⟨3, 4⟩⟩, ⟨2, some ⟨0, 1⟩⟩] : List MastFeature).get
          ⟨k, hk⟩).geometry = some g ∧
      find_nearest_mast envTwoMasts (some 1) (some 1) 100 =
        some (([⟨1, some ⟨3, 4⟩⟩, ⟨2, some ⟨0, 1⟩⟩] : List MastFeature).get
          ⟨k, hk⟩, dist2 1 1 g) ∧
      (∀ (j : ℕ)
        (hj : j < ([⟨1, some ⟨3, 4⟩⟩, ⟨2, some ⟨0, 1⟩⟩] : List MastFeature).length)
        (gj : Geometry),
        (([⟨1, some ⟨3, 4⟩⟩, ⟨2, some ⟨0, 1⟩⟩] : List MastFeature).get
            ⟨j, hj⟩).geometry = some gj →
        dist2 1 1 g ≤ dist2 1 1 gj) ∧
      (∀ (j : ℕ)
        (hj : j < ([⟨1, some ⟨3, 4⟩⟩, ⟨2, some ⟨0, 1⟩⟩] : List MastFeature).length)
        (gj : Geometry), j < k →
        (([⟨1, some ⟨3, 4⟩⟩, ⟨2, some ⟨0, 1⟩⟩] : List MastFeature).get
            ⟨j, hj⟩).geometry = some gj →
        dist2 1 1 g < dist2 1 1 gj)) :=
  find_nearest_selects_min envTwoMasts 1 1 1 1 100
    [⟨1, some ⟨3, 4⟩⟩, ⟨2, some ⟨0, 1⟩⟩]
    (by norm_num) (by norm_num) rfl rfl
    (by intro m hm; rcases List.mem_cons.mp hm with rfl | hm2 <;>
      simp_all)

theorem has_been_uploaded_true_iff (L : Ledger) (h : String) :
    (has_been_uploaded L h).1 = true ↔ h ∈ L.map (fun r => r.filehash) := by
  induction L with
  | nil => simp [has_been_uploaded]
  | cons r rest ih =>
    rw [has_been_uploaded_cons]
    split_ifs with hr
    · simp only [List.map_cons, List.mem_cons]
      exact iff_of_true (by simp) (Or.inl (beq_iff_eq.mp hr).symm)
    · rw [ih]
      simp only [List.map_cons, List.mem_cons]
      constructor
      · exact Or.inr
      · rintro (he | hm)
        · exact absurd he.symm (by simpa using hr)
        · exact hm

/-- A found hash short-circuits `upload_toppbefaring_image` with no
write. -/
theorem upload_skip (orc : FileOracle) (fm : Bool) (L : Ledger)
    (h : (has_been_uploaded L orc.fileHash).1 = true) :
    upload_toppbefaring_image orc fm L = (none, L) := by
  unfold upload_toppbefaring_image
  rw [if_pos h]

/-- With the hash absent, the call runs the body and appends its row,
if any. -/
theorem upload_not_found (orc : FileOracle) (fm : Bool) (L : Ledger)
    (h : ¬(has_been_uploaded L orc.fileHash).1 = true) :
    upload_toppbefaring_image orc fm L =
      match upload_body orc fm with
      | (v, none) => (v, L)
      | (v, some row) => (v, L ++ [row]) := by
  unfold upload_toppbefaring_image log_upload
  rw [if_neg h]

theorem finishUpdate_row_hash (orc : FileOracle) (iid : Option String)
    (st : String) (er : Bool) (ret : Option RemoteImage) :
    ∀ (v : Option RemoteImage) (row : LedgerRow),
      finishUpdate orc iid st er ret = (v, some row) →
      row.filehash = orc.fileHash := by
  intro v row h
  unfold finishUpdate at h
  cases iid with
  | none => simp at h
  | some s =>
    cases hres : orc.updateResult with
    | updateFailed =>
      simp only [hres] at h
      simp at h
    | ok =>
      simp only [hres] at h
      have h3 : okRow orc (if er then st else "ok") = row :=
        Option.some.inj (congrArg Prod.snd h)
      rw [← h3]
      rfl

theorem transferAndUpdate_row_hash (orc : FileOracle) :
    ∀ (v : Option RemoteImage) (row : LedgerRow),
      transferAndUpdate orc = (v, some row) → row.filehash = orc.fileHash := by
  intro v row h
  unfold transferAndUpdate at h
  cases hex : orc.checkExists with
  | some e =>
    simp only [hex] at h
    exact finishUpdate_row_hash orc e.id _ _ _ v row h
  | none =>
    simp only [hex] at h
    cases hup : orc.uploadResult with
    | none =>
      simp only [hup] at h
      simp at h
    | some ur =>
      simp only [hup] at h
      exact finishUpdate_row_hash orc ur.id _ _ _ v row h

/-- Every row the body logs carries the file's content hash. -/
theorem upload_body_row_hash (orc : FileOracle) (fm : Bool) :
    ∀ (v : Option RemoteImage) (row : LedgerRow),
      upload_body orc fm = (v, some row) → row.filehash = orc.fileHash := by
  intro v row h
  unfold upload_body at h
  by_cases hr : orc.raises
  · simp only [hr, if_true] at h
    have h3 : failedRow orc = row := Option.some.inj (congrArg Prod.snd h)
    rw [← h3]
    rfl
  · simp only [hr] at h
    rw [if_neg (by simp [hr])] at h
    cases hby : orc.mastById with
    | some a =>
      simp only [hby] at h
      exact transferAndUpdate_row_hash orc v row h
    | none =>
      simp only [hby] at h
      by_cases hfm : (fm && truthy orc.gpsLat && truthy orc.gpsLon) = true
      · rw [if_pos hfm] at h
        cases hnm : orc.nearestMast with
        | some nm =>
          simp only [hnm] at h
          exact transferAndUpdate_row_hash orc v row h
        | none =>
          simp only [hnm] at h
          have h3 : noNearbyRow orc = row := Option.some.inj (congrArg Prod.snd h)
          rw [← h3]
          rfl
      · rw [if_neg hfm] at h
        exact transferAndUpdate_row_hash orc v row h

theorem folder_step_ledger (fm : Bool) (st : BatchState) (f : FileOracle) :
    (folder_step fm st f).ledger = (upload_toppbefaring_image f fm st.ledger).2 := by
  unfold folder_step
  rcases hout : upload_toppbefaring_image f fm st.ledger with ⟨result, ledger2⟩
  cases result with
  | none =>
    simp only [hout]
    split_ifs <;> rfl
  | some r => simp [hout]

/-- Processing a file can only extend the ledger, and any appended row
carries the file's hash. -/
theorem upload_ledger_shape (orc : FileOracle) (fm : Bool) (L : Ledger) :
    (upload_toppbefaring_image orc fm L).2 = L ∨
    ∃ row : LedgerRow, (upload_toppbefaring_image orc fm L).2 = L ++ [row] ∧
      row.filehash = orc.fileHash := by
  by_cases h : (has_been_uploaded L orc.fileHash).1 = true
  · left
    rw [upload_skip orc fm L h]
  · rw [upload_not_found orc fm L h]
    rcases hb : upload_body orc fm with ⟨v, orow⟩
    cases orow with
    | none => left; simp
    | some row =>
      right
      exact ⟨row, by simp, upload_body_row_hash orc fm v row hb⟩

theorem run_ledger_extends (fm : Bool) : ∀ (files : List FileOracle)
    (st : BatchState),
    ∃ D : Ledger, (upload_from_folder fm files st).ledger = st.ledger ++ D := by
  intro files
  induction files with
  | nil => intro st; exact ⟨[], by simp [upload_from_folder]⟩
  | cons f rest ih =>
    intro st
    obtain ⟨D1, hD1⟩ : ∃ D1, (folder_step fm st f).ledger = st.ledger ++ D1 := by
      rcases upload_ledger_shape f fm st.ledger with hco | ⟨row, hrow, _⟩
      · exact ⟨[], by simp [folder_step_ledger, hco]⟩
      · exact ⟨[row], by simp [folder_step_ledger, hrow]⟩
    obtain ⟨D2, hD2⟩ := ih (folder_step fm st f)
    refine ⟨D1 ++ D2, ?_⟩
    have hrun : upload_from_folder fm (f :: rest) st =
        upload_from_folder fm rest (folder_step fm st f) := rfl
    rw [hrun, hD2, hD1, List.append_assoc]

/-- After a batch run, every processed file either has its hash in the
final ledger or its body is one of the silent no-log paths. -/
theorem run_hash_recorded (fm : Bool) : ∀ (files : List FileOracle)
    (st : BatchState), ∀ f ∈ files,
    f.fileHash ∈ (upload_from_folder fm files st).ledger.map
        (fun r => r.filehash) ∨
      (upload_body f fm).2 = none := by
  intro files
  induction files with
  | nil => intro st f hf; simp at hf
  | cons g rest ih =>
    intro st f hf
    have hrun : upload_from_folder fm (g :: rest) st =
        upload_from_folder fm rest (folder_step fm st g) := rfl
    rcases List.mem_cons.mp hf with rfl | hf2
    · rcases hb : (upload_body f fm).2 with _ | row
      · right; rfl
      · left
        have hstep : f.fileHash ∈ (folder_step fm st f).ledger.map
            (fun r => r.filehash) := by
          rw [folder_step_ledger]
          by_cases hfound : (has_been_uploaded st.ledger f.fileHash).1 = true
          · rcases upload_ledger_shape f fm st.ledger with hco | ⟨row2, hrow2, hrh2⟩
            · rw [hco]
              exact (has_been_uploaded_true_iff st.ledger f.fileHash).mp hfound
            · rw [hrow2]
              simp only [List.map_append, List.mem_append]
              left
              exact (has_been_uploaded_true_iff st.ledger f.fileHash).mp hfound
          · rw [upload_not_found f fm st.ledger hfound]
            rcases hbb : upload_body f fm with ⟨v, orow⟩
            have horow : orow = some row := by
              rw [hbb] at hb
              exact hb
            subst horow
            have hrh : row.filehash = f.fileHash :=
              upload_body_row_hash f fm v row hbb
            simp [hrh]
        obtain ⟨D, hD⟩ := run_ledger_extends fm rest (folder_step fm st f)
        rw [hrun, hD]
        simp only [List.map_append, List.mem_append]
        left
        exact hstep
    · rw [hrun]
      exact ih (folder_step fm st g) f hf2

/-- A batch over files that are all either already ledgered or on a
silent no-log path leaves the ledger untouched. -/
theorem run_no_writes (fm : Bool) : ∀ (files : List FileOracle)
    (st : BatchState),
    (∀ f ∈ files, f.fileHash ∈ st.ledger.map (fun r => r.filehash) ∨
      (upload_body f fm).2 = none) →
    (upload_from_folder fm files st).ledger = st.ledger := by
  intro files
  induction files with
  | nil => intro st _; rfl
  | cons g rest ih =>
    intro st hall
    have hstep : (folder_step fm st g).ledger = st.ledger := by
      rw [folder_step_ledger]
      by_cases hfound : (has_been_uploaded st.ledger g.fileHash).1 = true
      · rw [upload_skip g fm st.ledger hfound]
      · rcases hall g (List.mem_cons_self g rest) with hmem | hnone
        · exact absurd ((has_been_uploaded_true_iff _ _).mpr hmem) hfound
        · rw [upload_not_found g fm st.ledger hfound]
          rcases hbb : upload_body g fm with ⟨v, orow⟩
          have horow : orow = none := by
            rw [hbb] at hnone
            exact hnone
          subst horow
          simp
    have hrun : upload_from_folder fm (g :: rest) st =
        upload_from_folder fm rest (folder_step fm st g) := rfl
    rw [hrun, ih (folder_step fm st g)
      (by intro f hf; rw [hstep]; exact hall f (List.mem_cons_of_mem g hf))]
    exact hstep

/-- C1: a file whose hash is already ledgered terminates in the
`skipped` classification with no new ledger row; consequently, a
second batch run over the same files starting from the first run's
ledger appends exactly 0 rows. -/
theorem dedup_skip_and_idempotence :
    (∀ (fm : Bool) (st : BatchState) (f : FileOracle),
      (has_been_uploaded st.ledger f.fileHash).1 = true →
      folder_step fm st f = { st with skipped := st.skipped + 1 }) ∧
    (∀ (fm : Bool) (files : List FileOracle) (st st2 : BatchState),
      st2.ledger = (upload_from_folder fm files st).ledger →
      (upload_from_folder fm files st2).ledger =
        (upload_from_folder fm files st).ledger) := by
  constructor
  · intro fm st f h
    rcases st with ⟨u, s, fc, L⟩
    unfold folder_step
    rw [upload_skip f fm L h]
    simp [h]
  · intro fm files st st2 h2
    have hall : ∀ f ∈ files,
        f.fileHash ∈ st2.ledger.map (fun r => r.filehash) ∨
        (upload_body f fm).2 = none := by
      intro f hf
      rcases run_hash_recorded fm files st f hf with hmem | hnone
      · left
        rw [h2]
        exact hmem
      · right
        exact hnone
    rw [run_no_writes fm files st2 hall, h2]

/-- A ledger row and file oracle for exercising the batch theorems:
the file's bytes hash to `"hw"`, which the one-row ledger already
contains. -/
def rowW : LedgerRow := ⟨"w.jpg", "hw", 2, 3, "ok"⟩

/-- An oracle describing a file that resolves a mast by id, uploads
and updates successfully. -/
def orcW : FileOracle :=
  { filename := "w.jpg", fileHash := "hw", now := 9, raises := false,
    checkExists := none, gpsLat := some 1, gpsLon := some 1,
    mastById := some ⟨1, some ⟨0, 0⟩⟩, nearestMast := none,
    uploadResult := some ⟨some "ID"⟩, updateResult := .ok }

/-- Witness for C1: the concrete skip step and a concrete
run-twice. -/
theorem dedup_skip_and_idempotence_witness :
    ((has_been_uploaded [rowW] orcW.fileHash).1 = true ∧
      folder_step true ⟨0, 0, 0, [rowW]⟩ orcW =
        { (⟨0, 0, 0, [rowW]⟩ : BatchState) with skipped := 0 + 1 }) ∧
    (upload_from_folder true [orcW]
        ⟨0, 0, 0, (upload_from_folder true [orcW] ⟨0, 0, 0, []⟩).ledger⟩).ledger =
      (upload_from_folder true [orcW] ⟨0, 0, 0, []⟩).ledger :=
  ⟨⟨by decide,
    dedup_skip_and_idempotence.1 true ⟨0, 0, 0, [rowW]⟩ orcW (by decide)⟩,
   dedup_skip_and_idempotence.2 true [orcW] ⟨0, 0, 0, []⟩
     ⟨0, 0, 0, (upload_from_folder true [orcW] ⟨0, 0, 0, []⟩).ledger⟩ rfl⟩

/-- An oracle for a file that is new locally and remotely, transfers
successfully, but whose metadata update reports `"Update failed"`. -/
def orcUpdateFails : FileOracle :=
  { filename := "f.jpg", fileHash := "h9", now := 7, raises := false,
    checkExists := none, gpsLat := some 1, gpsLon := some 1,
    mastById := some ⟨1, some ⟨0, 0⟩⟩, nearestMast := none,
    uploadResult := some ⟨some "ID"⟩, updateResult := .updateFailed }

/-- An oracle for a file whose byte transfer yields no result. -/
def orcUploadFails : FileOracle :=
  { orcUpdateFails with uploadResult := none, updateResult := .ok }

/-- C2 (code bug, evaluation at the failing inputs): when the byte
transfer succeeds but the metadata update reports failure — and
likewise when the upload itself returns nothing — the Toppbefaring
flow returns `None` without writing any ledger row at all, leaving the
non-skipped file with zero ledger entries (the source's own comment
"continue to finally block for logging" refers to a `finally` block
that does not exist). -/
theorem metadata_failure_writes_no_row :
    upload_toppbefaring_image orcUpdateFails true [] = (none, []) ∧
    upload_toppbefaring_image orcUploadFails true [] = (none, []) := by
  constructor <;> rfl

end UploadImagegrid
